import Mathlib

/-!
Shallow embedding of `pelican/readers.py`: the content-reader subsystem of a
static-site generator.  Python strings are modelled as Lean `String`
(equivalently their `List Char` of code points); Python dicts used as string
maps are modelled as association lists whose lookup finds the most recent
binding; fallible Python code is modelled with `Except`.  External rendering
engines (docutils, markdown, asciidoc, typogrify) are out of scope per the
module boundary and enter the model as oracle functions.
-/

namespace Pelican

/-- Python whitespace characters (`str.strip` / `str.rstrip` default set,
and the `\s` class of the `re` module for ASCII input): space, tab,
newline, carriage return, vertical tab, form feed. -/
def isPyWs (c : Char) : Bool :=
  c.toNat = 32 ∨ c.toNat = 9 ∨ c.toNat = 10 ∨ c.toNat = 13 ∨ c.toNat = 11 ∨ c.toNat = 12

/-- Python `str.lstrip()` on a list of characters. -/
def pyLstrip (l : List Char) : List Char := l.dropWhile isPyWs

/-- Python `str.rstrip()` on a list of characters. -/
def pyRstrip (l : List Char) : List Char := (l.reverse.dropWhile isPyWs).reverse

/-- Python `str.strip()` on a list of characters. -/
def pyStrip (l : List Char) : List Char := pyLstrip (pyRstrip l)

/-- Rebuild a `String` from its characters. -/
def ofChars (l : List Char) : String := String.mk l

/-- Python `str.lower()` (ASCII case mapping). -/
def lowerStr (s : String) : String := ofChars (s.data.map Char.toLower)

/-- Python `str.upper()` (ASCII case mapping). -/
def upperStr (s : String) : String := ofChars (s.data.map Char.toUpper)

/-- Python `str.split(sep)` for a one-character separator, on characters.
`''.split(',') = ['']` just as `splitChar c [] = [[]]`. -/
def splitChar (sep : Char) : List Char → List (List Char)
  | [] => [[]]
  | c :: rest =>
    if c = sep then [] :: splitChar sep rest
    else
      match splitChar sep rest with
      | r :: rs => (c :: r) :: rs
      | [] => [[c]]

/-- Python `str.split(sep)` for a one-character separator, on strings. -/
def pySplit (sep : Char) (s : String) : List String :=
  (splitChar sep s.data).map ofChars

/-- The lines produced by iterating over a Python file object, with the
terminating `'\n'` of each line removed (the reader immediately `rstrip`s
every line, so keeping the terminator would be unobservable).  A trailing
newline produces no extra empty line, matching Python file iteration. -/
def pyLines (text : String) : List (List Char) :=
  let ps := splitChar '\n' text.data
  match ps.getLast? with
  | some [] => ps.dropLast
  | _ => ps

/-- `filename.split('.')[-1]`: the text after the last dot (the whole name
when there is no dot). -/
def lastDot (filename : String) : String :=
  ofChars ((splitChar '.' filename.data).getLastD [])

/-- A value stored in the caller-supplied settings dict. -/
inductive SettingVal where
  | bool (b : Bool)
  | str (s : String)
  | strList (l : List String)
  | pyNone
deriving DecidableEq, Repr

/-- Python truthiness of a settings value. -/
def SettingVal.truthy : SettingVal → Bool
  | .bool b => b
  | .str s => s ≠ ""
  | .strList l => l ≠ []
  | .pyNone => false

/-- The settings context handed to `read_file` and the readers: either
Python `None` or a dict, modelled as an association list. -/
abbrev SettingsCtx := Option (List (String × SettingVal))

/-- The opaque `Tag` domain value: constructed from a string and the
settings context (`Tag(tag, y)` in `_METADATA_PROCESSORS`). -/
structure TagV where
  name : String
  settings : SettingsCtx
deriving DecidableEq, Repr

/-- A value stored in a metadata record.  `date` is the structured date
produced by `pelican.utils.get_date`; that helper is not under `src/`, and
per the spec it turns free text into a structured date, so the structured
value is represented opaquely by the text it was parsed from.  `category`
and `author` are the opaque domain constructors applied to the raw string
and the settings context.  `pyNone` models the Python `None` value
(e.g. a missing docutils title stored by `setdefault`). -/
inductive MetaValue where
  | str (s : String)
  | pyNone
  | tags (ts : List TagV)
  | date (raw : String)
  | category (name : String) (settings : SettingsCtx)
  | author (name : String) (settings : SettingsCtx)
deriving DecidableEq, Repr

/-- A metadata record: a string-keyed dict.  `mset` prepends, `mget` finds
the most recent binding, matching dict overwrite semantics. -/
abbrev MetaMap := List (String × MetaValue)

/-- Dict store: `metadata[name] = value`. -/
def mset (m : MetaMap) (k : String) (v : MetaValue) : MetaMap := (k, v) :: m

/-- Dict read: `metadata.get(name)`. -/
def mget (m : MetaMap) (k : String) : Option MetaValue := m.lookup k

/-- The field names registered in `_METADATA_PROCESSORS`. -/
def metadataProcessorKeys : List String :=
  ["tags", "date", "status", "category", "author"]

/-- `Reader.process_metadata(name, value)`: when `name` is a key of
`_METADATA_PROCESSORS` apply that rule to `(value, settings)`, otherwise
return the raw value unchanged.  The rules are those of the source table:
`tags` splits on commas into `Tag`s, `date` calls `get_date`, `status`
strips, `category`/`author` apply the domain constructors. -/
def processMetadata (ctx : SettingsCtx) (name : String) (value : String) : MetaValue :=
  if name = "tags" then
    .tags ((pySplit ',' value).map fun t => TagV.mk t ctx)
  else if name = "date" then
    .date value
  else if name = "status" then
    .str (ofChars (pyStrip value.data))
  else if name = "category" then
    .category value ctx
  else if name = "author" then
    .author value ctx
  else
    .str value

/-- Follows the spec's words for §4.1 ("Lookup is by lowercased field
name"): a coercion that first lowercases the field name and then consults
the rule table.  Stated for comparison with `processMetadata`, which is the
translation of the source. -/
def specProcessMetadataLowercased (ctx : SettingsCtx) (name : String) (value : String) : MetaValue :=
  processMetadata ctx (lowerStr name) value

/-- The Python exceptions `read_file` and the readers can raise. -/
inductive PyErr where
  | typeError (msg : String)
  | valueError (msg : String)
  | keyError (key : String)
  | indexError (msg : String)
deriving DecidableEq, Repr

/-! ### A small regex engine for `HtmlReader._re`

`HtmlReader` matches `'\<\!\-\-\#\s?[A-z0-9_-]*\s?\:s?[A-z0-9\s_-]*\s?\-\-\>'`,
a purely sequential pattern of literals, optional single characters and
character-class stars.  The engine below reproduces Python `re` semantics
for such patterns: `*` and `?` are greedy and the overall match is the
first success in backtracking order. -/

/-- One item of a sequential regex: a literal, a greedy optional character
from a class, or a greedy star over a character class. -/
inductive RItem where
  | lit (l : List Char)
  | opt (p : Char → Bool)
  | star (p : Char → Bool)

/-- Is the first list a prefix of the second? -/
def charsPrefix : List Char → List Char → Bool
  | [], _ => true
  | _ :: _, [] => false
  | a :: as, b :: bs => a = b && charsPrefix as bs

/-- The greedy star: consume as many class characters as possible, then
hand the rest to the continuation `k`, backtracking one character at a
time when the continuation fails. -/
def starLoop (p : Char → Bool) (k : List Char → Option (List Char)) : List Char → Option (List Char)
  | [] => k []
  | c :: cs =>
    if p c then (starLoop p k cs).orElse (fun _ => k (c :: cs))
    else k (c :: cs)

/-- Match a sequential pattern against the front of `cs`, returning the
rest of the input after the first (greedy, backtracking) match. -/
def mtch : List RItem → List Char → Option (List Char)
  | [], cs => some cs
  | RItem.lit l :: rest, cs =>
    if charsPrefix l cs then mtch rest (cs.drop l.length) else Option.none
  | RItem.opt p :: rest, cs =>
    match cs with
    | [] => mtch rest []
    | c :: cs' =>
      if p c then (mtch rest cs').orElse (fun _ => mtch rest (c :: cs'))
      else mtch rest (c :: cs')
  | RItem.star p :: rest, cs => starLoop p (mtch rest) cs

/-- Scanner for `re.findall`: try a match at each position from the left,
emit the matched text and continue after it (Python's non-overlapping
leftmost scan).  `fuel` bounds the recursion; `findall` supplies enough
fuel that it is never exhausted because every step consumes input. -/
def findallGo (items : List RItem) : List Char → Nat → List (List Char)
  | _, 0 => []
  | cs, fuel + 1 =>
    match mtch items cs with
    | some rest =>
      let m := cs.take (cs.length - rest.length)
      if m = [] then
        match cs with
        | [] => [m]
        | _ :: t => m :: findallGo items t fuel
      else m :: findallGo items rest fuel
    | Option.none =>
      match cs with
      | [] => []
      | _ :: t => findallGo items t fuel

/-- `re.findall(pattern, s)` for a sequential pattern without groups:
the list of non-overlapping matched substrings, scanning left to right. -/
def findall (items : List RItem) (cs : List Char) : List (List Char) :=
  findallGo items cs (cs.length + 1)

/-- The class `[A-z0-9_-]` of `HtmlReader._re` (note `A-z`, the code-point
range from `'A'` (65) to `'z'` (122), which also contains the punctuation
between `'Z'` and `'a'`), plus digits, underscore (95) and hyphen (45). -/
def isKeyChar (c : Char) : Bool :=
  (65 ≤ c.toNat ∧ c.toNat ≤ 122) ∨ (48 ≤ c.toNat ∧ c.toNat ≤ 57) ∨ c.toNat = 95 ∨ c.toNat = 45

/-- The class `[A-z0-9\s_-]` of `HtmlReader._re`. -/
def isValChar (c : Char) : Bool := isKeyChar c ∨ isPyWs c

/-- `HtmlReader._re = re.compile('\<\!\-\-\#\s?[A-z0-9_-]*\s?\:s?[A-z0-9\s_-]*\s?\-\-\>')`
item by item: literal `<!--#`, optional whitespace, key-class star,
optional whitespace, literal `:`, optional literal `s` (the source has
`s?` where `\s?` was evidently meant), value-class star, optional
whitespace, literal `-->`. -/
def htmlPattern : List RItem :=
  [RItem.lit "<!--#".data, RItem.opt isPyWs, RItem.star isKeyChar,
   RItem.opt isPyWs, RItem.lit [':'], RItem.opt (fun c => c = 's'),
   RItem.star isValChar, RItem.opt isPyWs, RItem.lit "-->".data]

/-! ### `AsciiDocReader` line matchers

The three line regexes of `AsciiDocReader` are anchored (`^ ... $`) and are
applied to single lines (no `'\n'` inside), so each is translated to a
direct scanning function reproducing Python's lazy/greedy backtracking
order on that domain. -/

/-- Scanner for `meta_re = re.compile(r'^:(.+?): (.+)$')` after the leading
`':'` has been consumed: the lazy group 1 takes the shortest prefix that is
followed by `': '` with a nonempty remainder; an unusable split point is
absorbed into group 1 and the scan continues.  `acc` holds group 1 so far,
reversed. -/
def metaScan (acc : List Char) : List Char → Option (List Char × List Char)
  | ':' :: ' ' :: rest =>
    if acc.isEmpty ∨ rest.isEmpty then metaScan (':' :: acc) (' ' :: rest)
    else some (acc.reverse, rest)
  | c :: rest => metaScan (c :: acc) rest
  | [] => Option.none

/-- `meta_re.match(line)`: `some (group1, group2)` when the line matches
`^:(.+?): (.+)$`. -/
def metaMatch : List Char → Option (List Char × List Char)
  | ':' :: rest => metaScan [] rest
  | _ => Option.none

/-- Scanner for `author_re = re.compile(r'^([^\s].+?) <([^\s]+?)>$')` after
the first character (which must not be whitespace) has been consumed into
`acc`.  The lazy group 1 stops at the first `' <'` whose remainder has the
shape `group2 ++ ['>']` with the `'>'` ending the line and group 2 a
nonempty run of non-whitespace characters (the `$` anchor pins the closing
`'>'` to the last character); an unusable `' <'` is absorbed into group 1. -/
def authorScan (acc : List Char) : List Char → Option (List Char × List Char)
  | ' ' :: '<' :: rest =>
    if 2 ≤ acc.length ∧ rest.getLastD ' ' = '>'
        ∧ ¬rest.dropLast.isEmpty ∧ rest.dropLast.all (fun c => ¬isPyWs c) then
      some (acc.reverse, rest.dropLast)
    else authorScan (' ' :: acc) ('<' :: rest)
  | c :: rest => authorScan (c :: acc) rest
  | [] => Option.none

/-- `author_re.match(line)`: `some (group1, group2)` when the line matches
`^([^\s].+?) <([^\s]+?)>$`. -/
def authorMatch : List Char → Option (List Char × List Char)
  | c :: rest => if isPyWs c then Option.none else authorScan [c] rest
  | [] => Option.none

/-- How many leading characters of `l` equal `c`. -/
def leadCount (c : Char) : List Char → Nat
  | [] => 0
  | x :: rest => if x = c then leadCount c rest + 1 else 0

/-- Group 3 of `rev_re` once the text `u` after the `':'` is fixed: the
greedy `' *'` takes the leading spaces but gives one back when it would
leave the lazy nonempty `(.+?)$` with nothing. -/
def revGroup3 (u : List Char) : List Char :=
  u.drop (min (leadCount ' ' u) (u.length - 1))

/-- Scanner for the `(.+?): *(.+?)$` tail of `rev_re`: the lazy group 2
stops at the first `':'` preceded by at least one character and followed by
at least one; an unusable `':'` is absorbed into group 2. -/
def colonSplit (acc : List Char) : List Char → Option (List Char × List Char)
  | ':' :: u =>
    if acc.isEmpty ∨ u.isEmpty then colonSplit (':' :: acc) u
    else some (acc.reverse, revGroup3 u)
  | c :: u => colonSplit (c :: acc) u
  | [] => Option.none

/-- The `' *(.+?): *(.+?)$'` part of `rev_re` applied to `cs`: the greedy
leading `' *'` first takes all `j` leading spaces and backtracks,
releasing them into group 2 one at a time until the colon split succeeds. -/
def revTail (cs : List Char) : Nat → Option (List Char × List Char)
  | 0 => colonSplit [] cs
  | j + 1 =>
    match colonSplit [] (cs.drop (j + 1)) with
    | some r => some r
    | Option.none => revTail cs j

/-- Match `' *(.+?): *(.+?)$'` against `cs`. -/
def revTailMatch (cs : List Char) : Option (List Char × List Char) :=
  revTail cs (leadCount ' ' cs)

/-- Scanner for `rev_re = re.compile(r'^(?:(.+?),)? *(.+?): *(.+?)$')` when
the greedy optional group is taken: the lazy group 1 stops at the first
`','` preceded by at least one character whose remainder matches the tail
pattern; an unusable `','` is absorbed into group 1. -/
def revScan (acc : List Char) : List Char → Option (Option (List Char) × List Char × List Char)
  | ',' :: u =>
    if acc.isEmpty then revScan (',' :: acc) u
    else
      match revTailMatch u with
      | some (g2, g3) => some (some acc.reverse, g2, g3)
      | Option.none => revScan (',' :: acc) u
  | c :: u => revScan (c :: acc) u
  | [] => Option.none

/-- `rev_re.match(line)`: `some (group1?, group2, group3)` when the line
matches `^(?:(.+?),)? *(.+?): *(.+?)$`.  The optional group is greedy, so
every comma split is tried before the group is dropped. -/
def revMatch (line : List Char) : Option (Option (List Char) × List Char × List Char) :=
  match revScan [] line with
  | some r => some r
  | Option.none =>
    match revTailMatch line with
    | some (g2, g3) => some (Option.none, g2, g3)
    | Option.none => Option.none

/-- One pass of the loop body of `AsciiDocReader.read_meta` over the lines
of the file.  The state is the `title` variable (`None` until the first
non-blank line) and the metadata dict; the first blank line after the
title breaks the loop.  The three `.match` results are side-effect free,
so testing them at their branch instead of eagerly is equivalent. -/
def readMetaLines (ctx : SettingsCtx) : Option (List Char) → MetaMap → List (List Char) → MetaMap
  | _, md, [] => md
  | title, md, rawLine :: rest =>
    let line := pyRstrip rawLine
    if ¬(pyStrip line).isEmpty ∧ title = Option.none then
      readMetaLines ctx (some line) (mset md "title" (MetaValue.str (ofChars line))) rest
    else if (pyStrip line).isEmpty ∧ title ≠ Option.none then
      md
    else
      match metaMatch line with
      | some (g1, g2) =>
        let name := lowerStr (ofChars g1)
        let md := mset md name (processMetadata ctx name (ofChars g2))
        let md := if name = "revdate"
          then mset md "date" (processMetadata ctx name (ofChars g2)) else md
        readMetaLines ctx title md rest
      | Option.none =>
        match authorMatch line with
        | some (au, em) =>
          let md := mset md "author" (processMetadata ctx "author" (ofChars au))
          let md := mset md "email" (processMetadata ctx "email" (ofChars em))
          readMetaLines ctx title md rest
        | Option.none =>
          match revMatch line with
          | some (g1, g2, g3) =>
            let md := mset md "revdate" (MetaValue.str (ofChars g2))
            let md := mset md "date" (processMetadata ctx "date" (ofChars g2))
            let md := mset md "revnumber"
              (match g1 with
               | some rv => MetaValue.str (ofChars rv)
               | Option.none => MetaValue.pyNone)
            let md := mset md "revremark" (MetaValue.str (ofChars g3))
            readMetaLines ctx title md rest
          | Option.none => readMetaLines ctx title md rest

/-- `AsciiDocReader.read_meta(filename)` on the text of the file. -/
def readMeta (ctx : SettingsCtx) (text : String) : MetaMap :=
  readMetaLines ctx Option.none [] (pyLines text)

/-! ### The four readers and the dispatch entry point

The external rendering engines (docutils, markdown, asciidoc) and the
typogrify filter are outside this module per the spec's boundary; they are
supplied as oracle functions in `Engines`. -/

/-- Oracle outputs of the external engines for the file being read.
`mdConvert exts text` is `Markdown(extensions=exts).convert(text)` paired
with the engine's `Meta` mapping (name to list of raw values);
`rstDocinfo`/`rstTitle`/`rstBody` are the docinfo field texts (summary
already rendered to a fragment by the restricted visitor), the document
title of `pub.writer.parts`, and its body; `adExec` is the asciidoc HTML
output; `typogStr`/`typogVal` are the typogrify filter on content and on
the stored title value. -/
structure Engines where
  fileText : String
  mdConvert : List String → String → String × List (String × List String)
  rstDocinfo : List (String × String)
  rstTitle : Option String
  rstBody : String
  adExec : String
  typogStr : String → String
  typogVal : MetaValue → MetaValue

/-- Which optional engine imports succeeded (`bool(docutils)`,
`bool(Markdown)`, `bool(AsciiDocAPI)`). -/
structure Avail where
  docutils : Bool
  markdown : Bool
  asciidoc : Bool
deriving DecidableEq, Repr

/-- `i.split(':')[0][5:].strip()` — the key text of one matched HTML
metadata comment, before lowercasing. -/
def htmlKeyOf (i : List Char) : String :=
  ofChars (pyStrip (((splitChar ':' i).headD []).drop 5))

/-- `i.split(':')[-1][:-3].strip()` — the value text of one matched HTML
metadata comment. -/
def htmlValOf (i : List Char) : String :=
  let last := (splitChar ':' i).getLastD []
  ofChars (pyStrip (last.take (last.length - 3)))

/-- `HtmlReader.read`: content is the file text unrendered; metadata
starts at `{'title': 'unnamed'}` and each comment matched by `_re` stores
its lowercased key via `process_metadata`. -/
def htmlRead (ctx : SettingsCtx) (text : String) : String × MetaMap :=
  let ms := findall htmlPattern text.data
  (text,
    ms.foldl
      (fun md i =>
        let name := lowerStr (htmlKeyOf i)
        mset md name (processMetadata ctx name (htmlValOf i)))
      [("title", MetaValue.str "unnamed")])

/-- `RstReader.read`: docinfo fields are lowercased and coerced; then
`metadata.setdefault('title', parts.get('title'))` fills `title` with the
engine's document title — possibly Python `None` — when no explicit
`title` field exists. -/
def rstRead (E : Engines) (ctx : SettingsCtx) : String × MetaMap :=
  let md := E.rstDocinfo.foldl
    (fun m nv =>
      let n := lowerStr nv.1
      mset m n (processMetadata ctx n nv.2))
    []
  let md := match mget md "title" with
    | some _ => md
    | Option.none =>
      mset md "title"
        (match E.rstTitle with
         | some t => MetaValue.str t
         | Option.none => MetaValue.pyNone)
  (E.rstBody, md)

/-- `MarkdownReader.read`: the engine runs with the reader's extension
list (the class default `['codehilite', 'extra']` unless dispatch injected
a settings override) plus `'meta'`; each `md.Meta` entry stores the first
raw value under the lowercased name.  `value[0]` on an empty engine value
list raises `IndexError`; a non-list extension override makes
`self.extensions + ['meta']` raise `TypeError`. -/
def mdRead (E : Engines) (ctx : SettingsCtx) (ov : Option SettingVal) :
    Except PyErr (String × MetaMap) := do
  let exts ← match ov with
    | Option.none => pure ["codehilite", "extra"]
    | some (SettingVal.strList l) => pure l
    | some _ => Except.error (PyErr.typeError "can only concatenate list to list")
  let (content, meta) := E.mdConvert (exts ++ ["meta"]) E.fileText
  let md ← meta.foldlM
    (fun md nv =>
      match nv.2 with
      | [] => Except.error (PyErr.indexError "list index out of range")
      | v0 :: _ =>
        let n := lowerStr nv.1
        pure (mset md n (processMetadata ctx n v0)))
    ([] : MetaMap)
  pure (content, md)

/-- `AsciiDocReader.read`: `self.settings['ASCIIDOC_CONF']` is indexed
unconditionally (a `None` settings context is unsubscriptable, a dict
without the key raises `KeyError`); then the engine renders the body and
`read_meta` scans the raw source text. -/
def adRead (E : Engines) (ctx : SettingsCtx) : Except PyErr (String × MetaMap) :=
  match ctx with
  | Option.none =>
    Except.error (PyErr.typeError "NoneType object has no attribute getitem")
  | some l =>
    match l.lookup "ASCIIDOC_CONF" with
    | Option.none => Except.error (PyErr.keyError "ASCIIDOC_CONF")
    | some _ => Except.ok (E.adExec, readMeta ctx E.fileText)

/-- The reader types whose subclasses-of-`Reader` declarations build
`_EXTENSIONS`. -/
inductive ReaderType where
  | rst
  | markdown
  | asciidoc
  | html
deriving DecidableEq, Repr

/-- The `file_extensions` declarations of the `Reader` subclasses, in
source order. -/
def readerDecls : List (ReaderType × List String) :=
  [(ReaderType.rst, ["rst"]),
   (ReaderType.markdown, ["md", "markdown", "mkd"]),
   (ReaderType.asciidoc, ["txt"]),
   (ReaderType.html, ["html", "htm"])]

/-- The `_EXTENSIONS` build loop: `for cls in subclasses: for ext in
cls.file_extensions: _EXTENSIONS[ext] = cls`.  Dict overwrite is modelled
by prepending, so lookup finds the most recent registration. -/
def buildExtensions (decls : List (ReaderType × List String)) : List (String × ReaderType) :=
  decls.foldl (fun reg d => d.2.foldl (fun reg e => (e, d.1) :: reg) reg) []

/-- The registration events `(extension, reader)` of the build loop in
chronological order. -/
def regSeq (decls : List (ReaderType × List String)) : List (String × ReaderType) :=
  decls.flatMap fun d => d.2.map fun e => (e, d.1)

/-- The `_EXTENSIONS` registry of the module. -/
def EXTENSIONS : List (String × ReaderType) := buildExtensions readerDecls

/-- An instantiated reader as dispatch sees it: its `enabled` flag and its
`read` method (taking the settings context it was constructed with and the
`reader.extensions` override dispatch may have injected). -/
structure ReaderSpec where
  enabled : Bool
  read : SettingsCtx → Option SettingVal → Except PyErr (String × MetaMap)

/-- Instantiating each reader type: the `enabled` flags are
`bool(docutils)`, `bool(Markdown)`, `True` (inherited), `bool(AsciiDocAPI)`. -/
def readerSpecFor (E : Engines) (av : Avail) : ReaderType → ReaderSpec
  | ReaderType.rst => ⟨av.docutils, fun ctx _ => Except.ok (rstRead E ctx)⟩
  | ReaderType.markdown => ⟨av.markdown, fun ctx ov => mdRead E ctx ov⟩
  | ReaderType.asciidoc => ⟨av.asciidoc, fun ctx _ => adRead E ctx⟩
  | ReaderType.html => ⟨true, fun ctx _ => Except.ok (htmlRead ctx E.fileText)⟩

/-- The registry with each extension's reader type instantiated. -/
def registryFor (E : Engines) (av : Avail) : List (String × ReaderSpec) :=
  EXTENSIONS.map fun p => (p.1, readerSpecFor E av p.2)

/-- `if not fmt: fmt = filename.split('.')[-1]` — `None` and the empty
string are falsy. -/
def resolvedFmt (filename : String) (fmt : Option String) : String :=
  match fmt with
  | Option.none => lastDot filename
  | some f => if f = "" then lastDot filename else f

/-- `if settings and settings_key in settings: reader.extensions =
settings[settings_key]` — the value injected into the reader, when any. -/
def extOverrideOf (fmtR : String) (settings : SettingsCtx) : Option SettingVal :=
  match settings with
  | Option.none => Option.none
  | some l => if l = [] then Option.none else l.lookup (upperStr fmtR ++ "_EXTENSIONS")

/-- `read_file(filename, fmt, settings)` over an arbitrary registry of
instantiated readers and typogrify oracles: resolve the format, look it up
(`TypeError` naming the path when unknown), inject the extension override,
refuse a disabled reader (`ValueError` naming the format), invoke `read`,
then `if settings and settings['TYPOGRIFY']` — a non-empty settings dict
is indexed directly, so a missing `'TYPOGRIFY'` key raises `KeyError`;
when the value is truthy the content and `metadata['title']` (a `KeyError`
when absent) are filtered. -/
def readFileG (tS : String → String) (tV : MetaValue → MetaValue)
    (reg : List (String × ReaderSpec)) (filename : String) (fmt : Option String)
    (settings : SettingsCtx) : Except PyErr (String × MetaMap) :=
  let f := resolvedFmt filename fmt
  match reg.lookup f with
  | Option.none =>
    Except.error (PyErr.typeError ("Pelican does not know how to parse " ++ filename))
  | some rd =>
    let ov := extOverrideOf f settings
    if rd.enabled then
      match rd.read settings ov with
      | Except.error e => Except.error e
      | Except.ok (content, metadata) =>
        match settings with
        | Option.none => Except.ok (content, metadata)
        | some l =>
          if l = [] then Except.ok (content, metadata)
          else
            match l.lookup "TYPOGRIFY" with
            | Option.none => Except.error (PyErr.keyError "TYPOGRIFY")
            | some v =>
              if v.truthy then
                match mget metadata "title" with
                | Option.none => Except.error (PyErr.keyError "title")
                | some t => Except.ok (tS content, mset metadata "title" (tV t))
              else Except.ok (content, metadata)
    else Except.error (PyErr.valueError ("Missing dependencies for " ++ f))

/-- `read_file` with the module's own registry and engine oracles. -/
def readFilePelican (E : Engines) (av : Avail) (filename : String)
    (fmt : Option String) (settings : SettingsCtx) : Except PyErr (String × MetaMap) :=
  readFileG E.typogStr E.typogVal (registryFor E av) filename fmt settings

/-- Join character lists with a one-character separator (the inverse of
`splitChar` on separator-free pieces). -/
def joinChar (sep : Char) : List (List Char) → List Char
  | [] => []
  | [a] => a
  | a :: rest => a ++ sep :: joinChar sep rest

/-- Comma-join a list of strings. -/
def joinComma (ps : List String) : String :=
  ofChars (joinChar ',' (ps.map String.data))

/-- A concrete set of engine oracles for evaluating the dispatcher on
closed inputs: the file is empty and every engine returns an empty result;
the markdown engine reports an empty `Meta` mapping. -/
def sampleEngines : Engines :=
  ⟨"", fun _ _ => ("", []), [], Option.none, "", "", id, id⟩

/-- All engine imports succeeded. -/
def sampleAvail : Avail := ⟨true, true, true⟩

/-- The markdown import failed (`Markdown = False`). -/
def sampleAvailNoMd : Avail := ⟨true, false, true⟩

/-! ## Supporting lemmas -/

theorem mget_mset_self (m : MetaMap) (k : String) (v : MetaValue) :
    mget (mset m k v) k = some v := by
  simp [mget, mset, List.lookup]

theorem mget_mset_ne (m : MetaMap) (k k' : String) (v : MetaValue) (h : k' ≠ k) :
    mget (mset m k v) k' = mget m k' := by
  simp [mget, mset, List.lookup, beq_false_of_ne h]

theorem mget_mset_isSome (m : MetaMap) (k k' : String) (v : MetaValue)
    (h : (mget m k').isSome) : (mget (mset m k v) k').isSome := by
  by_cases hk : k' = k
  · subst hk; simp [mget_mset_self]
  · rwa [mget_mset_ne _ _ _ _ hk]

theorem ofChars_data (s : String) : ofChars s.data = s := rfl

theorem data_append (a b : String) : (a ++ b).data = a.data ++ b.data := rfl

theorem splitChar_not_mem (sep : Char) (l : List Char) (h : sep ∉ l) :
    splitChar sep l = [l] := by
  induction l with
  | nil => rfl
  | cons c rest ih =>
    have hc : ¬c = sep := fun e => h (e ▸ List.mem_cons_self c rest)
    have hr : sep ∉ rest := fun m => h (List.mem_cons_of_mem c m)
    simp [splitChar, hc, ih hr]

theorem splitChar_append (sep : Char) (a rest : List Char) (h : sep ∉ a) :
    splitChar sep (a ++ sep :: rest) = a :: splitChar sep rest := by
  induction a with
  | nil => simp [splitChar]
  | cons c a ih =>
    have hc : ¬c = sep := fun e => h (e ▸ List.mem_cons_self c a)
    have ha : sep ∉ a := fun m => h (List.mem_cons_of_mem c m)
    simp only [List.cons_append, splitChar, hc, if_false, List.append_eq, ih ha]

theorem dropWhile_append_of_ne_nil (p : Char → Bool) (x y : List Char)
    (h : x.dropWhile p ≠ []) : (x ++ y).dropWhile p = x.dropWhile p ++ y := by
  induction x with
  | nil => exact absurd rfl h
  | cons c x ih =>
    by_cases hc : p c = true
    · rw [List.dropWhile_cons_of_pos hc] at h
      simp only [List.cons_append, List.dropWhile_cons_of_pos hc, ih h]
    · simp only [List.cons_append, List.dropWhile_cons_of_neg hc]

theorem dropWhile_all_neg (p : Char → Bool) (l : List Char)
    (h : ∀ c ∈ l, p c = false) : l.dropWhile p = l := by
  cases l with
  | nil => rfl
  | cons c rest =>
    have : ¬ p c = true := by simp [h c (List.mem_cons_self c rest)]
    exact List.dropWhile_cons_of_neg this

theorem dropWhile_idem (p : Char → Bool) (l : List Char) :
    (l.dropWhile p).dropWhile p = l.dropWhile p := by
  induction l with
  | nil => rfl
  | cons c rest ih =>
    by_cases hc : p c = true
    · rw [List.dropWhile_cons_of_pos hc]; exact ih
    · rw [List.dropWhile_cons_of_neg hc, List.dropWhile_cons_of_neg hc]

theorem pyRstrip_ne_nil_iff (l : List Char) :
    pyRstrip l ≠ [] ↔ l.reverse.dropWhile isPyWs ≠ [] := by
  unfold pyRstrip
  constructor
  · intro h h2; exact h (by rw [h2]; rfl)
  · intro h h2
    exact h (by simpa using congrArg List.reverse h2)

theorem pyRstrip_append (a b : List Char) (h : pyRstrip b ≠ []) :
    pyRstrip (a ++ b) = a ++ pyRstrip b := by
  have hb : b.reverse.dropWhile isPyWs ≠ [] := (pyRstrip_ne_nil_iff b).mp h
  unfold pyRstrip
  rw [List.reverse_append, dropWhile_append_of_ne_nil _ _ _ hb,
    List.reverse_append, List.reverse_reverse]

theorem pyRstrip_append_ws (a : List Char) (c : Char) (h : isPyWs c = true) :
    pyRstrip (a ++ [c]) = pyRstrip a := by
  unfold pyRstrip
  rw [List.reverse_append]
  simp only [List.reverse_cons, List.reverse_nil, List.nil_append, List.singleton_append,
    List.dropWhile_cons_of_pos h]

theorem pyRstrip_all_not_ws (l : List Char) (h : ∀ c ∈ l, isPyWs c = false) :
    pyRstrip l = l := by
  unfold pyRstrip
  rw [dropWhile_all_neg _ _ (fun c hc => h c (List.mem_reverse.mp hc)), List.reverse_reverse]

theorem pyLstrip_all_not_ws (l : List Char) (h : ∀ c ∈ l, isPyWs c = false) :
    pyLstrip l = l := dropWhile_all_neg _ _ h

theorem pyLstrip_cons_ws (c : Char) (l : List Char) (h : isPyWs c = true) :
    pyLstrip (c :: l) = pyLstrip l := List.dropWhile_cons_of_pos h

theorem pyLstrip_cons_not_ws (c : Char) (l : List Char) (h : isPyWs c = false) :
    pyLstrip (c :: l) = c :: l := List.dropWhile_cons_of_neg (by simp [h])

theorem pyRstrip_idem (l : List Char) : pyRstrip (pyRstrip l) = pyRstrip l := by
  unfold pyRstrip
  rw [List.reverse_reverse, dropWhile_idem]

theorem pyStrip_pyRstrip (l : List Char) : pyStrip (pyRstrip l) = pyStrip l := by
  unfold pyStrip
  rw [pyRstrip_idem]

theorem lookup_map_spec (E : Engines) (av : Avail) (l : List (String × ReaderType)) (k : String) :
    (l.map fun p => (p.1, readerSpecFor E av p.2)).lookup k =
      (l.lookup k).map (readerSpecFor E av) := by
  induction l with
  | nil => rfl
  | cons p rest ih =>
    by_cases hk : k = p.1
    · subst hk; simp [List.lookup]
    · simp [List.lookup, beq_false_of_ne hk, ih]

theorem foldl_prepend_pairs (c : ReaderType) (l : List String)
    (acc : List (String × ReaderType)) :
    l.foldl (fun reg e => (e, c) :: reg) acc = (l.map fun e => (e, c)).reverse ++ acc := by
  induction l generalizing acc with
  | nil => rfl
  | cons e l ih =>
    simp only [List.foldl_cons, ih, List.map_cons, List.reverse_cons, List.append_assoc,
      List.singleton_append]

theorem foldl_build_eq_reverse (decls : List (ReaderType × List String))
    (acc : List (String × ReaderType)) :
    decls.foldl (fun reg d => d.2.foldl (fun reg e => (e, d.1) :: reg) reg) acc =
      (regSeq decls).reverse ++ acc := by
  induction decls generalizing acc with
  | nil => simp [regSeq]
  | cons d ds ih =>
    have hr : regSeq (d :: ds) = (d.2.map fun e => (e, d.1)) ++ regSeq ds := by
      simp [regSeq]
    rw [List.foldl_cons, foldl_prepend_pairs, ih, hr, List.reverse_append, List.append_assoc]

theorem buildExtensions_eq_reverse_regSeq (decls : List (ReaderType × List String)) :
    buildExtensions decls = (regSeq decls).reverse := by
  unfold buildExtensions
  rw [foldl_build_eq_reverse, List.append_nil]

/-! ## The claims -/

/-- C7: the registry built at startup maps each extension to (at most) one
reader type; looking an extension up yields the reader that registered it
last in the build loop's chronological registration sequence; and the
default registry contents are exactly: `rst` to the RST reader; `md`,
`markdown`, `mkd` to the Markdown reader; `txt` to the AsciiDoc reader;
`html`, `htm` to the HTML reader. -/
theorem registry_default_contents_last_wins :
    (∀ (decls : List (ReaderType × List String)) (ext : String),
      (buildExtensions decls).lookup ext = ((regSeq decls).reverse).lookup ext) ∧
    EXTENSIONS.lookup "rst" = some ReaderType.rst ∧
    EXTENSIONS.lookup "md" = some ReaderType.markdown ∧
    EXTENSIONS.lookup "markdown" = some ReaderType.markdown ∧
    EXTENSIONS.lookup "mkd" = some ReaderType.markdown ∧
    EXTENSIONS.lookup "txt" = some ReaderType.asciidoc ∧
    EXTENSIONS.lookup "html" = some ReaderType.html ∧
    EXTENSIONS.lookup "htm" = some ReaderType.html ∧
    EXTENSIONS.map Prod.fst = ["htm", "html", "txt", "mkd", "markdown", "md", "rst"] := by
  refine ⟨fun decls ext => by rw [buildExtensions_eq_reverse_regSeq], ?_, ?_, ?_, ?_, ?_, ?_, ?_, ?_⟩
  all_goals rfl

/-- C5 counterexample: `process_metadata` does not lowercase the field
name before the rule lookup.  For the field name `'TAGS'` the claim's
lowercased lookup would find the `tags` rule and produce a tag list, but
the code returns the raw value unchanged because `'TAGS'` is not a key of
`_METADATA_PROCESSORS`. -/
theorem processMetadata_lowercase_counterexample :
    processMetadata Option.none "TAGS" "a,b" = MetaValue.str "a,b" ∧
    specProcessMetadataLowercased Option.none "TAGS" "a,b" =
      MetaValue.tags [⟨"a", Option.none⟩, ⟨"b", Option.none⟩] ∧
    processMetadata Option.none "TAGS" "a,b" ≠
      specProcessMetadataLowercased Option.none "TAGS" "a,b" := by
  refine ⟨rfl, ?_, ?_⟩ <;> decide

/-- C5 (amended): metadata coercion looks the rule up by the field name
exactly as given — callers lowercase names before calling — and when no
rule is registered under that name the raw value is returned unchanged,
never an error. -/
theorem processMetadata_identity_amended (ctx : SettingsCtx) (name value : String)
    (h : name ∉ metadataProcessorKeys) :
    processMetadata ctx name value = MetaValue.str value := by
  simp only [metadataProcessorKeys, List.mem_cons, List.mem_singleton, not_or] at h
  obtain ⟨h1, h2, h3, h4, h5, -⟩ := h
  simp [processMetadata, h1, h2, h3, h4, h5]

/-- C5 witness: the unregistered field name `'revdate'` passes its raw
value through unchanged. -/
theorem processMetadata_identity_amended_witness :
    "revdate" ∉ metadataProcessorKeys ∧
      processMetadata Option.none "revdate" "2012-02-02" = MetaValue.str "2012-02-02" :=
  ⟨by decide, processMetadata_identity_amended Option.none "revdate" "2012-02-02" (by decide)⟩

theorem splitChar_joinChar (sep : Char) (ls : List (List Char)) (hne : ls ≠ [])
    (h : ∀ l ∈ ls, sep ∉ l) : splitChar sep (joinChar sep ls) = ls := by
  induction ls with
  | nil => exact absurd rfl hne
  | cons a rest ih =>
    cases rest with
    | nil =>
      exact splitChar_not_mem sep a (h a (List.mem_cons_self a []))
    | cons b rest2 =>
      have hj : joinChar sep (a :: b :: rest2) = a ++ sep :: joinChar sep (b :: rest2) := rfl
      rw [hj, splitChar_append sep a _ (h a (List.mem_cons_self a _)),
        ih (by simp) (fun l hl => h l (List.mem_cons_of_mem a hl))]

/-- C6: coercing a `tags` field splits the raw string on commas and maps
each piece to a `Tag` constructed with the settings context, preserving
the order and multiplicity of the pieces: for every non-empty list of
comma-free pieces, the coercion of their comma-join is exactly the `Tag`
of each piece in order. -/
theorem tags_coercion_order_preserved (ctx : SettingsCtx) (pieces : List String)
    (hne : pieces ≠ []) (h : ∀ p ∈ pieces, ',' ∉ p.data) :
    processMetadata ctx "tags" (joinComma pieces) =
      MetaValue.tags (pieces.map fun p => TagV.mk p ctx) := by
  have hd : pieces.map String.data ≠ [] := by
    intro e; exact hne (List.map_eq_nil_iff.mp e)
  have hmem : ∀ l ∈ pieces.map String.data, ',' ∉ l := by
    intro l hl
    obtain ⟨p, hp, rfl⟩ := List.mem_map.mp hl
    exact h p hp
  have hsplit : pySplit ',' (joinComma pieces) = pieces := by
    simp only [pySplit, joinComma]
    rw [show (ofChars (joinChar ',' (pieces.map String.data))).data =
        joinChar ',' (pieces.map String.data) from rfl,
      splitChar_joinChar ',' _ hd hmem, List.map_map]
    exact List.map_id pieces
  show MetaValue.tags ((pySplit ',' (joinComma pieces)).map fun t => TagV.mk t ctx) = _
  rw [hsplit]

/-- C6 witness: the raw value `'a,b,c'` yields exactly
`[Tag(a), Tag(b), Tag(c)]`; a duplicated piece is kept. -/
theorem tags_coercion_order_preserved_witness :
    (["a", "b", "c", "b"] : List String) ≠ [] ∧
    (∀ p ∈ (["a", "b", "c", "b"] : List String), ',' ∉ p.data) ∧
    processMetadata Option.none "tags" "a,b,c,b" =
      MetaValue.tags [⟨"a", Option.none⟩, ⟨"b", Option.none⟩, ⟨"c", Option.none⟩,
        ⟨"b", Option.none⟩] :=
  ⟨by decide, by decide,
    tags_coercion_order_preserved Option.none ["a", "b", "c", "b"] (by decide) (by decide)⟩

/-- C3: for every call to `read_file`, an unregistered resolved format
raises the unsupported-format `TypeError` whose message names the file
path, and a registered format whose reader's `enabled` flag is false
raises the missing-dependency `ValueError` whose message names the format
— for every possible `read` method, i.e. before `read` is ever invoked. -/
theorem readFile_dispatch_errors (tS : String → String) (tV : MetaValue → MetaValue)
    (reg : List (String × ReaderSpec)) (filename : String) (fmt : Option String)
    (settings : SettingsCtx) :
    (reg.lookup (resolvedFmt filename fmt) = Option.none →
      readFileG tS tV reg filename fmt settings =
        Except.error (PyErr.typeError ("Pelican does not know how to parse " ++ filename))) ∧
    (∀ rdf, reg.lookup (resolvedFmt filename fmt) = some ⟨false, rdf⟩ →
      readFileG tS tV reg filename fmt settings =
        Except.error (PyErr.valueError ("Missing dependencies for " ++ resolvedFmt filename fmt))) := by
  constructor
  · intro h
    simp only [readFileG, h]
  · intro rdf h
    simp only [readFileG, h]
    rfl

/-- C3 witness: with the markdown engine unavailable, dispatching
`file.xyz` raises the unsupported-format error naming the path and
dispatching `a.md` raises the missing-dependency error naming the format. -/
theorem readFile_dispatch_errors_witness :
    (registryFor sampleEngines sampleAvailNoMd).lookup (resolvedFmt "file.xyz" Option.none) =
      Option.none ∧
    (registryFor sampleEngines sampleAvailNoMd).lookup (resolvedFmt "a.md" Option.none) =
      some ⟨false, fun ctx ov => mdRead sampleEngines ctx ov⟩ ∧
    readFileG id id (registryFor sampleEngines sampleAvailNoMd) "file.xyz" Option.none
        Option.none =
      Except.error (PyErr.typeError "Pelican does not know how to parse file.xyz") ∧
    readFileG id id (registryFor sampleEngines sampleAvailNoMd) "a.md" Option.none Option.none =
      Except.error (PyErr.valueError "Missing dependencies for md") :=
  ⟨rfl, rfl,
    (readFile_dispatch_errors id id (registryFor sampleEngines sampleAvailNoMd) "file.xyz"
      Option.none Option.none).1 rfl,
    (readFile_dispatch_errors id id (registryFor sampleEngines sampleAvailNoMd) "a.md"
      Option.none Option.none).2 (fun ctx ov => mdRead sampleEngines ctx ov) rfl⟩

/-- C9: when `read_file` is called with a non-empty settings dict that has
no `'TYPOGRIFY'` key, the call fails with `KeyError('TYPOGRIFY')` after
the reader's `read` has already run: when `read` succeeds the overall
result is that `KeyError`, and when `read` itself fails its error is the
one propagated — so the outcome is decided by running `read` first. -/
theorem readFile_typogrify_keyerror_after_read (tS : String → String)
    (tV : MetaValue → MetaValue) (reg : List (String × ReaderSpec)) (filename : String)
    (fmt : Option String) (l : List (String × SettingVal)) (rd : ReaderSpec)
    (hne : l ≠ []) (hty : l.lookup "TYPOGRIFY" = Option.none)
    (hreg : reg.lookup (resolvedFmt filename fmt) = some rd) (hen : rd.enabled = true) :
    (∀ c md,
      rd.read (some l) (extOverrideOf (resolvedFmt filename fmt) (some l)) =
          Except.ok (c, md) →
        readFileG tS tV reg filename fmt (some l) =
          Except.error (PyErr.keyError "TYPOGRIFY")) ∧
    (∀ e,
      rd.read (some l) (extOverrideOf (resolvedFmt filename fmt) (some l)) =
          Except.error e →
        readFileG tS tV reg filename fmt (some l) = Except.error e) := by
  constructor
  · intro c md hread
    simp only [readFileG, hreg, hen, if_true, hread, hne, if_false, hty]
  · intro e hread
    simp only [readFileG, hreg, hen, if_true, hread]

/-- C9 witness: reading `a.html` (the HTML reader is always enabled and
its `read` is total) with the non-empty settings dict `{'FOO': True}`
raises `KeyError('TYPOGRIFY')`. -/
theorem readFile_typogrify_keyerror_witness :
    ([("FOO", SettingVal.bool true)] : List (String × SettingVal)) ≠ [] ∧
    ([("FOO", SettingVal.bool true)] : List (String × SettingVal)).lookup "TYPOGRIFY" =
      Option.none ∧
    readFileG id id (registryFor sampleEngines sampleAvail) "a.html" Option.none
        (some [("FOO", SettingVal.bool true)]) =
      Except.error (PyErr.keyError "TYPOGRIFY") :=
  ⟨by decide, rfl,
    (readFile_typogrify_keyerror_after_read id id (registryFor sampleEngines sampleAvail)
        "a.html" Option.none [("FOO", SettingVal.bool true)]
        ⟨true, fun ctx _ => Except.ok (htmlRead ctx sampleEngines.fileText)⟩
        (by decide) rfl rfl rfl).1
      "" [("title", MetaValue.str "unnamed")] (by rfl)⟩

theorem htmlFold_lookup_ne (ctx : SettingsCtx) (ms : List (List Char)) (md : MetaMap)
    (k : String) (h : ∀ i ∈ ms, lowerStr (htmlKeyOf i) ≠ k) :
    mget (ms.foldl
      (fun md i =>
        let name := lowerStr (htmlKeyOf i)
        mset md name (processMetadata ctx name (htmlValOf i))) md) k = mget md k := by
  induction ms generalizing md with
  | nil => rfl
  | cons i ms ih =>
    rw [List.foldl_cons, ih _ (fun j hj => h j (List.mem_cons_of_mem i hj)),
      mget_mset_ne _ _ _ _ (fun e => h i (List.mem_cons_self i ms) e.symm)]

theorem htmlFold_lookup_isSome (ctx : SettingsCtx) (ms : List (List Char)) (md : MetaMap)
    (k : String) (h : (mget md k).isSome) :
    (mget (ms.foldl
      (fun md i =>
        let name := lowerStr (htmlKeyOf i)
        mset md name (processMetadata ctx name (htmlValOf i))) md) k).isSome := by
  induction ms generalizing md with
  | nil => exact h
  | cons i ms ih =>
    exact ih _ (mget_mset_isSome _ _ _ _ h)

/-- C8: for every raw-markup (HTML) input in which no embedded metadata
comment supplies a `title` key, the returned metadata has `title` equal to
the literal string `"unnamed"`. -/
theorem htmlRead_default_title_unnamed (ctx : SettingsCtx) (text : String)
    (h : ∀ i ∈ findall htmlPattern text.data, lowerStr (htmlKeyOf i) ≠ "title") :
    mget (htmlRead ctx text).2 "title" = some (MetaValue.str "unnamed") := by
  show mget ((findall htmlPattern text.data).foldl _ [("title", MetaValue.str "unnamed")])
    "title" = some (MetaValue.str "unnamed")
  rw [htmlFold_lookup_ne ctx _ _ _ h]
  rfl

/-- C8 witness: an HTML file with no metadata comments (one with an
unrelated comment included) defaults `title` to `"unnamed"`. -/
theorem htmlRead_default_title_unnamed_witness :
    (∀ i ∈ findall htmlPattern "<p>hi</p><!--# author : Jane -->".data,
      lowerStr (htmlKeyOf i) ≠ "title") ∧
    mget (htmlRead Option.none "<p>hi</p><!--# author : Jane -->").2 "title" =
      some (MetaValue.str "unnamed") :=
  ⟨by decide,
    htmlRead_default_title_unnamed Option.none "<p>hi</p><!--# author : Jane -->" (by decide)⟩

theorem pyLines_single (s : String) (t : List Char) (hs : s.data = t)
    (h1 : '\n' ∉ t) (hne : t ≠ []) : pyLines s = [t] := by
  simp only [pyLines]
  rw [hs, splitChar_not_mem '\n' t h1]
  cases t with
  | nil => exact absurd rfl hne
  | cons c cs => rfl

theorem pyLines_pair (s : String) (t w : List Char) (hs : s.data = t ++ '\n' :: w)
    (h1 : '\n' ∉ t) (h2 : '\n' ∉ w) (hw : w ≠ []) : pyLines s = [t, w] := by
  simp only [pyLines]
  rw [hs, splitChar_append '\n' t w h1, splitChar_not_mem '\n' w h2]
  cases w with
  | nil => exact absurd rfl hw
  | cons c cs => rfl

theorem readMetaLines_title_step (ctx : SettingsCtx) (md : MetaMap) (rawLine : List Char)
    (rest : List (List Char)) (h : (pyStrip (pyRstrip rawLine)).isEmpty = false) :
    readMetaLines ctx Option.none md (rawLine :: rest) =
      readMetaLines ctx (some (pyRstrip rawLine))
        (mset md "title" (MetaValue.str (ofChars (pyRstrip rawLine)))) rest := by
  simp [readMetaLines, h]

theorem readMetaLines_meta_step (ctx : SettingsCtx) (tl : List Char) (md : MetaMap)
    (rawLine : List Char) (rest : List (List Char)) (g1 g2 : List Char)
    (hnb : (pyStrip (pyRstrip rawLine)).isEmpty = false)
    (hm : metaMatch (pyRstrip rawLine) = some (g1, g2)) :
    readMetaLines ctx (some tl) md (rawLine :: rest) =
      readMetaLines ctx (some tl)
        (let name := lowerStr (ofChars g1)
         let md1 := mset md name (processMetadata ctx name (ofChars g2))
         if name = "revdate" then mset md1 "date" (processMetadata ctx name (ofChars g2))
         else md1) rest := by
  simp [readMetaLines, hnb, hm]

theorem metaMatch_revdate (u : List Char) (hu : u ≠ []) :
    metaMatch (":revdate: ".data ++ u) = some ("revdate".data, u) := by
  cases u with
  | nil => exact absurd rfl hu
  | cons c cs => rfl

theorem pyStrip_isEmpty_false_of_head (c : Char) (l : List Char) (hc : isPyWs c = false)
    (hr : pyRstrip (c :: l) = c :: l) : (pyStrip (c :: l)).isEmpty = false := by
  unfold pyStrip
  rw [hr, pyLstrip_cons_not_ws c l hc]
  rfl

/-- C1 counterexample: in an input whose first non-blank line is
`':author: Jane Doe <jane@example.com>'`, that line is classified as the
title, not by the metadata-field pattern — the title test precedes all
pattern tests, so no `author` key is stored. -/
theorem readMeta_author_line_first_is_title :
    mget (readMeta Option.none ":author: Jane Doe <jane@example.com>") "author" =
      Option.none ∧
    mget (readMeta Option.none ":author: Jane Doe <jane@example.com>") "title" =
      some (MetaValue.str ":author: Jane Doe <jane@example.com>") :=
  ⟨rfl, rfl⟩

/-- C1 (amended): in the flow-text reader's line scan, the title test and
the blank-line termination test come first: every first non-blank line
becomes the title, even one matching the metadata-field, author or
revision pattern.  Only after a title is set are the patterns tried, in
the priority order metadata-field, then author, then revision: a
non-first line `':author: Jane Doe <jane@example.com>'` is classified by
the metadata-field pattern (storing `author` and no `email`), and a
non-first line matching both the author and revision patterns is
classified by the author pattern (storing `author` and `email`, no
`revremark`). -/
theorem readMeta_pattern_priority_amended :
    (∀ (ctx : SettingsCtx) (l : String), '\n' ∉ l.data → pyStrip (pyRstrip l.data) ≠ [] →
      readMeta ctx l = [("title", MetaValue.str (ofChars (pyRstrip l.data)))]) ∧
    (mget (readMeta Option.none "Title\n:author: Jane Doe <jane@example.com>") "author" =
        some (MetaValue.author "Jane Doe <jane@example.com>" Option.none) ∧
      mget (readMeta Option.none "Title\n:author: Jane Doe <jane@example.com>") "email" =
        Option.none) ∧
    (mget (readMeta Option.none "Title\nJohn Doe: x <y>") "author" =
        some (MetaValue.author "John Doe: x" Option.none) ∧
      mget (readMeta Option.none "Title\nJohn Doe: x <y>") "email" =
        some (MetaValue.str "y") ∧
      mget (readMeta Option.none "Title\nJohn Doe: x <y>") "revremark" = Option.none) := by
  refine ⟨?_, ⟨rfl, rfl⟩, ⟨rfl, rfl, rfl⟩⟩
  intro ctx l h1 h2
  have hld : l.data ≠ [] := by
    intro e
    apply h2
    rw [e]
    rfl
  have hfalse : (pyStrip (pyRstrip l.data)).isEmpty = false := by
    cases hsp : pyStrip (pyRstrip l.data) with
    | nil => exact absurd hsp h2
    | cons a b => rfl
  rw [readMeta, pyLines_single l l.data rfl h1 hld,
    readMetaLines_title_step ctx [] l.data [] hfalse]
  rfl

/-- C1 witness: the title-first part of the amended claim applied to the
claim's own line, arriving as the first non-blank line. -/
theorem readMeta_pattern_priority_amended_witness :
    ('\n' ∉ ":author: Jane Doe <jane@example.com>".data ∧
      pyStrip (pyRstrip ":author: Jane Doe <jane@example.com>".data) ≠ []) ∧
    readMeta Option.none ":author: Jane Doe <jane@example.com>" =
      [("title", MetaValue.str
        (ofChars (pyRstrip ":author: Jane Doe <jane@example.com>".data)))] :=
  ⟨⟨by decide, by decide⟩,
    readMeta_pattern_priority_amended.1 Option.none ":author: Jane Doe <jane@example.com>"
      (by decide) (by decide)⟩

/-- C10: when the flow-text reader scans a (non-first) line of the shape
`':revdate: VALUE'`, the value stored under `date` is the one coerced
under the field name `'revdate'`, which has no registered rule — so
`date` holds the raw string unchanged (while coercion under the name
`'date'` would have produced a structured date value). -/
theorem readMeta_revdate_raw_date (ctx : SettingsCtx) (t v : String)
    (ht1 : '\n' ∉ t.data) (ht2 : pyStrip t.data ≠ [])
    (hv1 : v.data ≠ []) (hv2 : '\n' ∉ v.data) (hv3 : pyRstrip v.data = v.data) :
    processMetadata ctx "date" v = MetaValue.date v ∧
    mget (readMeta ctx (t ++ "\n:revdate: " ++ v)) "date" = some (MetaValue.str v) := by
  refine ⟨rfl, ?_⟩
  have hw : '\n' ∉ ":revdate: ".data ++ v.data := by
    intro hmem
    rcases List.mem_append.mp hmem with h | h
    · revert h
      decide
    · exact hv2 h
  have hwne : ":revdate: ".data ++ v.data ≠ [] := by
    intro e
    exact absurd (List.append_eq_nil.mp e).1 (by decide)
  have hdata : (t ++ "\n:revdate: " ++ v).data =
      t.data ++ '\n' :: (":revdate: ".data ++ v.data) := by
    show (t.data ++ "\n:revdate: ".data) ++ v.data = _
    rw [List.append_assoc]
    rfl
  have hvr : pyRstrip v.data ≠ [] := by
    rw [hv3]
    exact hv1
  have hrw : pyRstrip (":revdate: ".data ++ v.data) = ":revdate: ".data ++ v.data := by
    rw [pyRstrip_append _ _ hvr, hv3]
  have hnb2 : (pyStrip (pyRstrip (":revdate: ".data ++ v.data))).isEmpty = false := by
    rw [hrw]
    exact pyStrip_isEmpty_false_of_head ':' ("revdate: ".data ++ v.data) rfl hrw
  have ht2' : (pyStrip (pyRstrip t.data)).isEmpty = false := by
    rw [pyStrip_pyRstrip]
    cases hsp : pyStrip t.data with
    | nil => exact absurd hsp ht2
    | cons a b => rfl
  have hmm : metaMatch (pyRstrip (":revdate: ".data ++ v.data)) =
      some ("revdate".data, v.data) := by
    rw [hrw]
    exact metaMatch_revdate v.data hv1
  rw [readMeta, pyLines_pair _ t.data (":revdate: ".data ++ v.data) hdata ht1 hw hwne,
    readMetaLines_title_step ctx [] t.data _ ht2',
    readMetaLines_meta_step ctx (pyRstrip t.data) _ _ [] "revdate".data v.data hnb2 hmm]
  show mget (mset (mset _ "revdate" (processMetadata ctx "revdate" (ofChars v.data)))
      "date" (processMetadata ctx "revdate" (ofChars v.data))) "date" = some (MetaValue.str v)
  rw [mget_mset_self]
  rfl

/-- C10 witness: `':revdate: 2012-02-02'` after a title line stores the
raw string `'2012-02-02'` under `date`. -/
theorem readMeta_revdate_raw_date_witness :
    ('\n' ∉ "My Title".data ∧ pyStrip "My Title".data ≠ [] ∧ "2012-02-02".data ≠ [] ∧
      '\n' ∉ "2012-02-02".data ∧ pyRstrip "2012-02-02".data = "2012-02-02".data) ∧
    mget (readMeta Option.none ("My Title" ++ "\n:revdate: " ++ "2012-02-02")) "date" =
      some (MetaValue.str "2012-02-02") :=
  ⟨⟨by decide, by decide, by decide, by decide, by decide⟩,
    (readMeta_revdate_raw_date Option.none "My Title" "2012-02-02" (by decide) (by decide)
      (by decide) (by decide) (by decide)).2⟩

theorem rstRead_title_isSome (E : Engines) (ctx : SettingsCtx) :
    (mget (rstRead E ctx).2 "title").isSome := by
  simp only [rstRead]
  cases h : mget (E.rstDocinfo.foldl
      (fun m nv => mset m (lowerStr nv.1) (processMetadata ctx (lowerStr nv.1) nv.2)) [])
      "title" with
  | none => simp [h, mget_mset_self]
  | some v => simp [h]

theorem htmlRead_title_isSome (ctx : SettingsCtx) (text : String) :
    (mget (htmlRead ctx text).2 "title").isSome := by
  show (mget ((findall htmlPattern text.data).foldl _
    [("title", MetaValue.str "unnamed")]) "title").isSome
  exact htmlFold_lookup_isSome ctx _ _ _ rfl

theorem readFileG_title_isSome (tS : String → String) (tV : MetaValue → MetaValue)
    (reg : List (String × ReaderSpec)) (filename : String) (fmt : Option String)
    (settings : SettingsCtx) (c : String) (md : MetaMap) (rd : ReaderSpec)
    (hreg : reg.lookup (resolvedFmt filename fmt) = some rd)
    (hrd : ∀ s ov c0 m0, rd.read s ov = Except.ok (c0, m0) → (mget m0 "title").isSome)
    (hok : readFileG tS tV reg filename fmt settings = Except.ok (c, md)) :
    (mget md "title").isSome := by
  simp only [readFileG, hreg] at hok
  by_cases hen : rd.enabled = true
  · rw [if_pos hen] at hok
    cases hread : rd.read settings
        (extOverrideOf (resolvedFmt filename fmt) settings) with
    | error e => simp [hread] at hok
    | ok p =>
      obtain ⟨c0, m0⟩ := p
      have ht := hrd _ _ _ _ hread
      simp only [hread] at hok
      cases settings with
      | none =>
        simp only [Except.ok.injEq, Prod.mk.injEq] at hok
        rw [← hok.2]
        exact ht
      | some l =>
        by_cases hl : l = []
        · simp only [if_pos hl, Except.ok.injEq, Prod.mk.injEq] at hok
          rw [← hok.2]
          exact ht
        · simp only [if_neg hl] at hok
          cases hty : l.lookup "TYPOGRIFY" with
          | none => simp [hty] at hok
          | some v =>
            simp only [hty] at hok
            by_cases htr : v.truthy = true
            · simp only [if_pos htr] at hok
              cases hmt : mget m0 "title" with
              | none => simp [hmt] at hok
              | some t0 =>
                simp only [hmt, Except.ok.injEq, Prod.mk.injEq] at hok
                rw [← hok.2]
                simp [mget_mset_self]
            · simp only [if_neg htr, Except.ok.injEq, Prod.mk.injEq] at hok
              rw [← hok.2]
              exact ht
  · rw [if_neg hen] at hok
    exact absurd hok (by simp)

/-- C2 counterexample: `read_file` can return successfully with no
`title` key.  A markdown file whose engine metadata block is empty is
dispatched (markdown is enabled, settings is `None`, so the typography
branch is skipped) and returns an empty metadata mapping: the markdown
reader never defaults the title. -/
theorem readFile_markdown_missing_title_counterexample :
    readFilePelican sampleEngines sampleAvail "post.md" Option.none Option.none =
      Except.ok ("", []) ∧
    mget ([] : MetaMap) "title" = Option.none :=
  ⟨rfl, rfl⟩

/-- C2 (amended): a `title` key is guaranteed in the returned metadata
whenever the dispatched reader is the structured-markup (RST) reader
(which defaults it from the rendered document's own title node) or the
raw-markup (HTML) reader (which defaults it to `"unnamed"`); the
lightweight-markup and flow-text readers do not guarantee it. -/
theorem readFile_title_present_rst_html (E : Engines) (av : Avail) (filename : String)
    (fmt : Option String) (settings : SettingsCtx) (c : String) (md : MetaMap)
    (hok : readFilePelican E av filename fmt settings = Except.ok (c, md))
    (hfmt : EXTENSIONS.lookup (resolvedFmt filename fmt) = some ReaderType.rst ∨
            EXTENSIONS.lookup (resolvedFmt filename fmt) = some ReaderType.html) :
    (mget md "title").isSome := by
  have hlook : (registryFor E av).lookup (resolvedFmt filename fmt) =
      (EXTENSIONS.lookup (resolvedFmt filename fmt)).map (readerSpecFor E av) :=
    lookup_map_spec E av EXTENSIONS (resolvedFmt filename fmt)
  cases hfmt with
  | inl h =>
    refine readFileG_title_isSome E.typogStr E.typogVal _ filename fmt settings c md
      (readerSpecFor E av ReaderType.rst) (by rw [hlook, h]; rfl) ?_ hok
    intro s ov c0 m0 hr
    simp only [readerSpecFor, Except.ok.injEq, Prod.ext_iff] at hr
    rw [← hr.2]
    exact rstRead_title_isSome E s
  | inr h =>
    refine readFileG_title_isSome E.typogStr E.typogVal _ filename fmt settings c md
      (readerSpecFor E av ReaderType.html) (by rw [hlook, h]; rfl) ?_ hok
    intro s ov c0 m0 hr
    simp only [readerSpecFor, Except.ok.injEq, Prod.ext_iff] at hr
    rw [← hr.2]
    exact htmlRead_title_isSome s E.fileText

/-- C2 witness: a successful HTML dispatch, whose metadata carries the
defaulted title. -/
theorem readFile_title_present_rst_html_witness :
    readFilePelican sampleEngines sampleAvail "a.html" Option.none Option.none =
      Except.ok ("", [("title", MetaValue.str "unnamed")]) ∧
    (EXTENSIONS.lookup (resolvedFmt "a.html" Option.none) = some ReaderType.rst ∨
      EXTENSIONS.lookup (resolvedFmt "a.html" Option.none) = some ReaderType.html) ∧
    (mget [("title", MetaValue.str "unnamed")] "title").isSome :=
  ⟨rfl, Or.inr rfl,
    readFile_title_present_rst_html sampleEngines sampleAvail "a.html" Option.none Option.none
      "" [("title", MetaValue.str "unnamed")] rfl (Or.inr rfl)⟩

theorem starLoop_prepend (p : Char → Bool) (f : List Char → Option (List Char))
    (k rest : List Char) (r : List Char) (hk : ∀ c ∈ k, p c = true)
    (h : starLoop p f rest = some r) : starLoop p f (k ++ rest) = some r := by
  induction k with
  | nil => simpa using h
  | cons c cs ih =>
    have hc : p c = true := hk c (List.mem_cons_self c cs)
    have ih' := ih (fun d hd => hk d (List.mem_cons_of_mem c hd))
    simp only [List.cons_append, starLoop, hc, if_true, List.append_eq, ih']
    rfl

theorem starLoop_skip (p : Char → Bool) (f : List Char → Option (List Char))
    (c : Char) (cs : List Char) (h : p c = false) :
    starLoop p f (c :: cs) = f (c :: cs) := by
  simp [starLoop, h]

theorem charsPrefix_append (l x : List Char) : charsPrefix l (l ++ x) = true := by
  induction l with
  | nil => rfl
  | cons c cs ih => simp [charsPrefix, ih]

theorem mtch_lit_prefix (l x : List Char) (items : List RItem) :
    mtch (RItem.lit l :: items) (l ++ x) = mtch items x := by
  simp only [mtch, charsPrefix_append, if_true]
  rw [List.drop_left]

theorem mtch_opt_skip (p : Char → Bool) (items : List RItem) (c : Char) (cs : List Char)
    (h : p c = false) : mtch (RItem.opt p :: items) (c :: cs) = mtch items (c :: cs) := by
  simp [mtch, h]

theorem mtch_opt_take (p : Char → Bool) (items : List RItem) (c : Char) (cs : List Char)
    (r : List Char) (h : p c = true) (hs : mtch items cs = some r) :
    mtch (RItem.opt p :: items) (c :: cs) = some r := by
  simp only [mtch, h, if_true, hs]
  rfl

theorem mtch_htmlPattern_comment (k v : List Char)
    (hk : ∀ c ∈ k, isKeyChar c = true) (hv : ∀ c ∈ v, isValChar c = true) :
    mtch htmlPattern
      ("<!--#".data ++ ' ' :: (k ++ ' ' :: ':' :: ' ' ::
        (v ++ ' ' :: '-' :: '-' :: '>' :: []))) = some [] := by
  have h1 : starLoop isValChar (mtch [RItem.opt isPyWs, RItem.lit "-->".data])
      ('-' :: '-' :: '>' :: []) = some [] := rfl
  have hvv : ∀ c ∈ ' ' :: (v ++ [' ']), isValChar c = true := by
    intro c hc
    rcases List.mem_cons.mp hc with rfl | hc2
    · rfl
    · rcases List.mem_append.mp hc2 with h | h
      · exact hv c h
      · simp only [List.mem_singleton] at h
        subst h
        rfl
  have h2 : starLoop isValChar (mtch [RItem.opt isPyWs, RItem.lit "-->".data])
      ((' ' :: (v ++ [' '])) ++ ('-' :: '-' :: '>' :: [])) = some [] :=
    starLoop_prepend _ _ _ _ _ hvv h1
  have h2' : mtch [RItem.star isValChar, RItem.opt isPyWs, RItem.lit "-->".data]
      (' ' :: (v ++ ' ' :: '-' :: '-' :: '>' :: [])) = some [] := by
    show starLoop isValChar (mtch [RItem.opt isPyWs, RItem.lit "-->".data]) _ = some []
    have ha : (' ' :: (v ++ [' '])) ++ ('-' :: '-' :: '>' :: []) =
        ' ' :: (v ++ ' ' :: '-' :: '-' :: '>' :: []) := by
      simp
    rw [← ha]
    exact h2
  have h3 : mtch [RItem.opt (fun c => c = 's'), RItem.star isValChar, RItem.opt isPyWs,
      RItem.lit "-->".data] (' ' :: (v ++ ' ' :: '-' :: '-' :: '>' :: [])) = some [] := by
    rw [mtch_opt_skip _ _ _ _ (by decide)]
    exact h2'
  have h4 : mtch [RItem.lit [':'], RItem.opt (fun c => c = 's'), RItem.star isValChar,
      RItem.opt isPyWs, RItem.lit "-->".data]
      (':' :: ' ' :: (v ++ ' ' :: '-' :: '-' :: '>' :: [])) = some [] := by
    rw [show (':' :: ' ' :: (v ++ ' ' :: '-' :: '-' :: '>' :: [])) =
        [':'] ++ (' ' :: (v ++ ' ' :: '-' :: '-' :: '>' :: [])) from rfl,
      mtch_lit_prefix]
    exact h3
  have h5 : mtch [RItem.opt isPyWs, RItem.lit [':'], RItem.opt (fun c => c = 's'),
      RItem.star isValChar, RItem.opt isPyWs, RItem.lit "-->".data]
      (' ' :: ':' :: ' ' :: (v ++ ' ' :: '-' :: '-' :: '>' :: [])) = some [] :=
    mtch_opt_take _ _ _ _ _ (by decide) h4
  have h6 : starLoop isKeyChar (mtch [RItem.opt isPyWs, RItem.lit [':'],
      RItem.opt (fun c => c = 's'), RItem.star isValChar, RItem.opt isPyWs,
      RItem.lit "-->".data])
      (' ' :: ':' :: ' ' :: (v ++ ' ' :: '-' :: '-' :: '>' :: [])) = some [] := by
    rw [starLoop_skip _ _ _ _ (by decide)]
    exact h5
  have h7 : starLoop isKeyChar (mtch [RItem.opt isPyWs, RItem.lit [':'],
      RItem.opt (fun c => c = 's'), RItem.star isValChar, RItem.opt isPyWs,
      RItem.lit "-->".data])
      (k ++ ' ' :: ':' :: ' ' :: (v ++ ' ' :: '-' :: '-' :: '>' :: [])) = some [] :=
    starLoop_prepend _ _ _ _ _ hk h6
  have h8 : mtch [RItem.star isKeyChar, RItem.opt isPyWs, RItem.lit [':'],
      RItem.opt (fun c => c = 's'), RItem.star isValChar, RItem.opt isPyWs,
      RItem.lit "-->".data]
      (k ++ ' ' :: ':' :: ' ' :: (v ++ ' ' :: '-' :: '-' :: '>' :: [])) = some [] := h7
  have h9 : mtch [RItem.opt isPyWs, RItem.star isKeyChar, RItem.opt isPyWs, RItem.lit [':'],
      RItem.opt (fun c => c = 's'), RItem.star isValChar, RItem.opt isPyWs,
      RItem.lit "-->".data]
      (' ' :: (k ++ ' ' :: ':' :: ' ' :: (v ++ ' ' :: '-' :: '-' :: '>' :: []))) = some [] :=
    mtch_opt_take _ _ _ _ _ (by decide) h8
  rw [show htmlPattern = RItem.lit "<!--#".data :: [RItem.opt isPyWs, RItem.star isKeyChar,
      RItem.opt isPyWs, RItem.lit [':'], RItem.opt (fun c => c = 's'), RItem.star isValChar,
      RItem.opt isPyWs, RItem.lit "-->".data] from rfl, mtch_lit_prefix]
  exact h9

theorem findallGo_nil_of_stuck (items : List RItem) (h : mtch items [] = Option.none)
    (fuel : Nat) : findallGo items [] fuel = [] := by
  cases fuel with
  | zero => rfl
  | succ f => simp [findallGo, h]

theorem findall_whole (items : List RItem) (cs : List Char)
    (h : mtch items cs = some []) (hnil : mtch items [] = Option.none) (hne : cs ≠ []) :
    findall items cs = [cs] := by
  show findallGo items cs (cs.length + 1) = [cs]
  simp only [findallGo, h]
  rw [List.length_nil, Nat.sub_zero, List.take_length]
  rw [if_neg hne]
  rw [findallGo_nil_of_stuck items hnil]

theorem keyChar_ne_colon (c : Char) (h : isKeyChar c = true) : c ≠ ':' := by
  intro e
  subst e
  exact absurd h (by decide)

theorem valChar_ne_colon (c : Char) (h : isValChar c = true) : c ≠ ':' := by
  intro e
  subst e
  exact absurd h (by decide)

theorem keyChar_not_ws (c : Char) (h : isKeyChar c = true) : isPyWs c = false := by
  revert h
  simp only [isKeyChar, isPyWs]
  simp only [decide_eq_true_eq, decide_eq_false_iff_not]
  intro h hw
  rcases hw with h1 | h1 | h1 | h1 | h1 | h1 <;> rcases h with h2 | h2 | h2 | h2 <;> omega

theorem htmlKeyOf_comment (k v : List Char) (hk1 : k ≠ []) (hk : ∀ c ∈ k, isKeyChar c = true)
    (hv : ∀ c ∈ v, isValChar c = true) :
    htmlKeyOf ("<!--#".data ++ ' ' :: (k ++ ' ' :: ':' :: ' ' ::
      (v ++ ' ' :: '-' :: '-' :: '>' :: []))) = ofChars k := by
  have hA : ':' ∉ ("<!--# ".data ++ (k ++ [' '])) := by
    intro hc
    rcases List.mem_append.mp hc with h | h
    · exact absurd h (by decide)
    · rcases List.mem_append.mp h with h2 | h2
      · exact keyChar_ne_colon ':' (hk ':' h2) rfl
      · exact absurd h2 (by decide)
  have hB : ':' ∉ (' ' :: (v ++ ' ' :: '-' :: '-' :: '>' :: [])) := by
    intro hc
    rcases List.mem_cons.mp hc with h | h
    · exact absurd h (by decide)
    · rcases List.mem_append.mp h with h2 | h2
      · exact valChar_ne_colon ':' (hv ':' h2) rfl
      · exact absurd h2 (by decide)
  have hform : ("<!--#".data ++ ' ' :: (k ++ ' ' :: ':' :: ' ' ::
      (v ++ ' ' :: '-' :: '-' :: '>' :: []))) =
      ("<!--# ".data ++ (k ++ [' '])) ++ ':' ::
        (' ' :: (v ++ ' ' :: '-' :: '-' :: '>' :: [])) := by
    simp
  have hsplit : splitChar ':' ("<!--#".data ++ ' ' :: (k ++ ' ' :: ':' :: ' ' ::
      (v ++ ' ' :: '-' :: '-' :: '>' :: []))) =
      [("<!--# ".data ++ (k ++ [' '])), (' ' :: (v ++ ' ' :: '-' :: '-' :: '>' :: []))] := by
    rw [hform, splitChar_append ':' _ _ hA, splitChar_not_mem ':' _ hB]
  unfold htmlKeyOf
  rw [hsplit]
  show ofChars (pyStrip (' ' :: (k ++ [' ']))) = ofChars k
  have hkw : ∀ c ∈ k, isPyWs c = false := fun c hc => keyChar_not_ws c (hk c hc)
  have h1 : pyRstrip (' ' :: (k ++ [' '])) = ' ' :: k := by
    rw [show (' ' :: (k ++ [' '])) = ((' ' :: k) ++ [' ']) by simp,
      pyRstrip_append_ws _ ' ' (by decide)]
    have hrk : pyRstrip k ≠ [] := by
      rw [pyRstrip_all_not_ws k hkw]
      exact hk1
    rw [show (' ' :: k) = [' '] ++ k from rfl, pyRstrip_append [' '] k hrk,
      pyRstrip_all_not_ws k hkw]
  unfold pyStrip
  rw [h1, pyLstrip_cons_ws ' ' k (by decide), pyLstrip_all_not_ws k hkw]

theorem htmlValOf_comment (k v : List Char) (hk : ∀ c ∈ k, isKeyChar c = true)
    (hv : ∀ c ∈ v, isValChar c = true) (hv1 : v ≠ [])
    (hv3 : pyRstrip v = v) (hv4 : pyLstrip v = v) :
    htmlValOf ("<!--#".data ++ ' ' :: (k ++ ' ' :: ':' :: ' ' ::
      (v ++ ' ' :: '-' :: '-' :: '>' :: []))) = ofChars v := by
  have hA : ':' ∉ ("<!--# ".data ++ (k ++ [' '])) := by
    intro hc
    rcases List.mem_append.mp hc with h | h
    · exact absurd h (by decide)
    · rcases List.mem_append.mp h with h2 | h2
      · exact keyChar_ne_colon ':' (hk ':' h2) rfl
      · exact absurd h2 (by decide)
  have hB : ':' ∉ (' ' :: (v ++ ' ' :: '-' :: '-' :: '>' :: [])) := by
    intro hc
    rcases List.mem_cons.mp hc with h | h
    · exact absurd h (by decide)
    · rcases List.mem_append.mp h with h2 | h2
      · exact valChar_ne_colon ':' (hv ':' h2) rfl
      · exact absurd h2 (by decide)
  have hform : ("<!--#".data ++ ' ' :: (k ++ ' ' :: ':' :: ' ' ::
      (v ++ ' ' :: '-' :: '-' :: '>' :: []))) =
      ("<!--# ".data ++ (k ++ [' '])) ++ ':' ::
        (' ' :: (v ++ ' ' :: '-' :: '-' :: '>' :: [])) := by
    simp
  have hsplit : splitChar ':' ("<!--#".data ++ ' ' :: (k ++ ' ' :: ':' :: ' ' ::
      (v ++ ' ' :: '-' :: '-' :: '>' :: []))) =
      [("<!--# ".data ++ (k ++ [' '])), (' ' :: (v ++ ' ' :: '-' :: '-' :: '>' :: []))] := by
    rw [hform, splitChar_append ':' _ _ hA, splitChar_not_mem ':' _ hB]
  unfold htmlValOf
  rw [hsplit]
  have hlen : (' ' :: (v ++ ' ' :: '-' :: '-' :: '>' :: [])).length - 3 = v.length + 2 := by
    simp [List.length_cons, List.length_append]
  show ofChars (pyStrip ((' ' :: (v ++ ' ' :: '-' :: '-' :: '>' :: [])).take
    ((' ' :: (v ++ ' ' :: '-' :: '-' :: '>' :: [])).length - 3))) = ofChars v
  rw [hlen]
  have htake : (' ' :: (v ++ ' ' :: '-' :: '-' :: '>' :: [])).take (v.length + 2) =
      ' ' :: (v ++ [' ']) := by
    rw [List.take_succ_cons]
    rw [List.take_append 1]
    rfl
  rw [htake]
  have h1 : pyRstrip (' ' :: (v ++ [' '])) = ' ' :: v := by
    rw [show (' ' :: (v ++ [' '])) = ((' ' :: v) ++ [' ']) by simp,
      pyRstrip_append_ws _ ' ' (by decide)]
    have hrv : pyRstrip v ≠ [] := by
      rw [hv3]
      exact hv1
    rw [show (' ' :: v) = [' '] ++ v from rfl, pyRstrip_append [' '] v hrv, hv3]
  unfold pyStrip
  rw [h1, pyLstrip_cons_ws ' ' v (by decide), hv4]

theorem htmlRead_comment_single (ctx : SettingsCtx) (text : String)
    (hfind : findall htmlPattern text.data = [text.data]) :
    (htmlRead ctx text).2 =
      mset [("title", MetaValue.str "unnamed")] (lowerStr (htmlKeyOf text.data))
        (processMetadata ctx (lowerStr (htmlKeyOf text.data)) (htmlValOf text.data)) := by
  show (findall htmlPattern text.data).foldl _ _ = _
  rw [hfind]
  rfl

/-- C4 counterexample: the value of an embedded metadata comment is not
arbitrary text.  `'@'` and `'.'` are outside the value class
`[A-z0-9\s_-]`, so `'<!--# author : jane@example.com -->'` does not match
the pattern at all and no `author` metadata is extracted; the
"whitespace-tolerant" reading also fails: two spaces after `'#'` already
prevent a match. -/
theorem htmlRead_arbitrary_value_counterexample :
    findall htmlPattern "<!--# author : jane@example.com -->".data = [] ∧
    mget (htmlRead Option.none "<!--# author : jane@example.com -->").2 "author" =
      Option.none ∧
    findall htmlPattern "<!--#  author : x -->".data = [] :=
  ⟨rfl, rfl, rfl⟩

/-- C4 (amended): the raw-markup reader extracts metadata from comment
markers of the shape `'<!--# key : value -->'` with at most one
whitespace character at each tolerated position; the key consists of
characters from the `A`–`z` code-point range plus digits, underscore and
hyphen, and the value admits only those characters plus whitespace — not
arbitrary text.  For any such key and value the comment is matched whole
and the lowercased key is stored with the coerced value. -/
theorem htmlRead_comment_extraction_amended (ctx : SettingsCtx) (k v : List Char)
    (text : String) (hk1 : k ≠ []) (hk : ∀ c ∈ k, isKeyChar c = true)
    (hv1 : v ≠ []) (hv : ∀ c ∈ v, isValChar c = true)
    (hv3 : pyRstrip v = v) (hv4 : pyLstrip v = v)
    (htext : text = "<!--# " ++ ofChars k ++ " : " ++ ofChars v ++ " -->") :
    findall htmlPattern text.data = [text.data] ∧
    mget (htmlRead ctx text).2 (lowerStr (ofChars k)) =
      some (processMetadata ctx (lowerStr (ofChars k)) (ofChars v)) := by
  subst htext
  have hdata : ("<!--# " ++ ofChars k ++ " : " ++ ofChars v ++ " -->").data =
      "<!--#".data ++ ' ' :: (k ++ ' ' :: ':' :: ' ' ::
        (v ++ ' ' :: '-' :: '-' :: '>' :: [])) := by
    show ((("<!--# ".data ++ k) ++ " : ".data) ++ v) ++ " -->".data = _
    simp
  have hfind : findall htmlPattern
      ("<!--# " ++ ofChars k ++ " : " ++ ofChars v ++ " -->").data =
      [("<!--# " ++ ofChars k ++ " : " ++ ofChars v ++ " -->").data] := by
    rw [hdata]
    exact findall_whole _ _ (mtch_htmlPattern_comment k v hk hv) rfl (List.cons_ne_nil _ _)
  refine ⟨hfind, ?_⟩
  rw [htmlRead_comment_single ctx _ hfind, hdata, htmlKeyOf_comment k v hk1 hk hv,
    htmlValOf_comment k v hk hv hv1 hv3 hv4, mget_mset_self]

/-- C4 witness: the comment `'<!--# author : Jane Doe -->'` is matched
whole and stores `author` coerced from `'Jane Doe'`. -/
theorem htmlRead_comment_extraction_amended_witness :
    ("author".data ≠ [] ∧ (∀ c ∈ "author".data, isKeyChar c = true) ∧
      "Jane Doe".data ≠ [] ∧ (∀ c ∈ "Jane Doe".data, isValChar c = true) ∧
      pyRstrip "Jane Doe".data = "Jane Doe".data ∧
      pyLstrip "Jane Doe".data = "Jane Doe".data) ∧
    mget (htmlRead Option.none "<!--# author : Jane Doe -->").2
        (lowerStr (ofChars "author".data)) =
      some (processMetadata Option.none (lowerStr (ofChars "author".data))
        (ofChars "Jane Doe".data)) :=
  ⟨⟨by decide, by decide, by decide, by decide, by decide, by decide⟩,
    (htmlRead_comment_extraction_amended Option.none "author".data "Jane Doe".data
      "<!--# author : Jane Doe -->" (by decide) (by decide) (by decide) (by decide)
      (by decide) (by decide) (by rfl)).2⟩

end Pelican
